import Mathlib

/-!
Verification of the multilinear interpolation engine described by the
repository's notebooks (`consav.linear_interp`).  The notebooks under
`src/` only call the engine (and test it against scipy); the engine body
itself is not part of the snapshot, so every definition below is modelled
from the specification, using exact rationals for the reals.

Grids are lists of rationals, value arrays are functions from indices to
rationals, batches and output buffers are lists.  In-place mutation of
the preparation state is modelled by returning the updated state.
-/

namespace LinearInterp

/-- Grid node access: `gridGet g i` is the i-th node of grid `g`
(default `0` out of bounds; callers establish the bounds). -/
def gridGet (g : List ℚ) (i : ℕ) : ℚ := g.getD i 0

/-- Modelled from the spec: the binary-search bracket locator of
`consav.linear_interp` (absent from `src/`), given extensionally by its
contract (spec 4.1): the least index `i` with `grid[i] <= x <= grid[i+1]`
(ties broken toward the lower index), clamped to `0` below the range and
to `n-2` above it.  The bisection's running time is not modelled. -/
def locate : List ℚ → ℚ → ℕ
  | _ :: b :: c :: rest, x => if x ≤ b then 0 else locate (b :: c :: rest) x + 1
  | _, _ => 0

/-- Modelled from the spec: one step bound of the sequential/monotonic
bracket search (spec 4.1): starting from a previous index, advance
forward while the query lies strictly beyond the right endpoint of the
current cell, clamping at the last valid cell index.  `fuel` bounds the
number of advances (the drivers pass the grid length). -/
def seqAdvance (g : List ℚ) (x : ℚ) : ℕ → ℕ → ℕ
  | 0, i => i
  | fuel + 1, i =>
    if i + 2 < g.length ∧ gridGet g (i + 1) < x then seqAdvance g x fuel (i + 1) else i

/-- Modelled from the spec: the sequential/monotonic bracket locator
(spec 4.1), reusing the previous bracket index as a starting point. -/
def locate_mon (g : List ℚ) (iprev : ℕ) (x : ℚ) : ℕ :=
  seqAdvance g x g.length iprev

/-- Modelled from the spec: fractional position of `x` in cell `i`
(spec 4.2): `t = (x - grid[i]) / (grid[i+1] - grid[i])`, deliberately
not clamped to `[0,1]` so that extrapolation works. -/
def relpos (g : List ℚ) (i : ℕ) (x : ℚ) : ℚ :=
  (x - gridGet g i) / (gridGet g (i + 1) - gridGet g i)

/-- Modelled from the spec: the one-dimensional weight-and-blend step
(spec 4.2) at bracket `i`: `(1-t) * v[i] + t * v[i+1]`. -/
def blend1 (g : List ℚ) (v : ℕ → ℚ) (i : ℕ) (x : ℚ) : ℚ :=
  (1 - relpos g i x) * v i + relpos g i x * v (i + 1)

/-- Modelled from the spec: the two-dimensional blend at given brackets,
formed by nesting the one-dimensional step (spec 2, dependency order). -/
def blend2 (g1 g2 : List ℚ) (V : ℕ → ℕ → ℚ) (i1 i2 : ℕ) (x1 x2 : ℚ) : ℚ :=
  blend1 g1 (fun a => blend1 g2 (fun b => V a b) i2 x2) i1 x1

/-- Modelled from the spec: the three-dimensional blend at given
brackets, formed by nesting the one-dimensional step. -/
def blend3 (g1 g2 g3 : List ℚ) (V : ℕ → ℕ → ℕ → ℚ) (i1 i2 i3 : ℕ)
    (x1 x2 x3 : ℚ) : ℚ :=
  blend1 g1 (fun a => blend2 g2 g3 (fun b c => V a b c) i2 i3 x2 x3) i1 x1

/-- Modelled from the spec: single-point 1D evaluation
(`linear_interp.interp_1d`): locate the bracket, then blend. -/
def interp_1d (g : List ℚ) (v : ℕ → ℚ) (x : ℚ) : ℚ :=
  blend1 g v (locate g x) x

/-- Modelled from the spec: single-point 2D evaluation
(`linear_interp.interp_2d`). -/
def interp_2d (g1 g2 : List ℚ) (V : ℕ → ℕ → ℚ) (x1 x2 : ℚ) : ℚ :=
  blend2 g1 g2 V (locate g1 x1) (locate g2 x2) x1 x2

/-- Modelled from the spec: single-point 3D evaluation
(`linear_interp.interp_3d`). -/
def interp_3d (g1 g2 g3 : List ℚ) (V : ℕ → ℕ → ℕ → ℚ) (x1 x2 x3 : ℚ) : ℚ :=
  blend3 g1 g2 g3 V (locate g1 x1) (locate g2 x2) (locate g3 x3) x1 x2 x3

/-- The reference 1D linear interpolation formula written from the
spec's words (spec 4.2, 8): with `t` the fractional position in cell
`i`, the blend `(1-t) * v[i] + t * v[i+1]`, computed at an
independently supplied bracket `i`. -/
def refLinear (g : List ℚ) (v : ℕ → ℚ) (i : ℕ) (x : ℚ) : ℚ :=
  (1 - relpos g i x) * v i + relpos g i x * v (i + 1)

/-- The reference bilinear formula written from the spec's words: the
flat sum over the 4 corner values, each weighted by the product of
per-dimension linear weights. -/
def refBilinear (g1 g2 : List ℚ) (V : ℕ → ℕ → ℚ) (i1 i2 : ℕ) (x1 x2 : ℚ) : ℚ :=
  (1 - relpos g1 i1 x1) * (1 - relpos g2 i2 x2) * V i1 i2 +
  (1 - relpos g1 i1 x1) * relpos g2 i2 x2 * V i1 (i2 + 1) +
  relpos g1 i1 x1 * (1 - relpos g2 i2 x2) * V (i1 + 1) i2 +
  relpos g1 i1 x1 * relpos g2 i2 x2 * V (i1 + 1) (i2 + 1)

/-- The reference trilinear formula written from the spec's words: the
flat sum over the 8 corner values, each weighted by the product of
per-dimension linear weights. -/
def refTrilinear (g1 g2 g3 : List ℚ) (V : ℕ → ℕ → ℕ → ℚ) (i1 i2 i3 : ℕ)
    (x1 x2 x3 : ℚ) : ℚ :=
  (1 - relpos g1 i1 x1) * (1 - relpos g2 i2 x2) * (1 - relpos g3 i3 x3) * V i1 i2 i3 +
  (1 - relpos g1 i1 x1) * (1 - relpos g2 i2 x2) * relpos g3 i3 x3 * V i1 i2 (i3 + 1) +
  (1 - relpos g1 i1 x1) * relpos g2 i2 x2 * (1 - relpos g3 i3 x3) * V i1 (i2 + 1) i3 +
  (1 - relpos g1 i1 x1) * relpos g2 i2 x2 * relpos g3 i3 x3 * V i1 (i2 + 1) (i3 + 1) +
  relpos g1 i1 x1 * (1 - relpos g2 i2 x2) * (1 - relpos g3 i3 x3) * V (i1 + 1) i2 i3 +
  relpos g1 i1 x1 * (1 - relpos g2 i2 x2) * relpos g3 i3 x3 * V (i1 + 1) i2 (i3 + 1) +
  relpos g1 i1 x1 * relpos g2 i2 x2 * (1 - relpos g3 i3 x3) * V (i1 + 1) (i2 + 1) i3 +
  relpos g1 i1 x1 * relpos g2 i2 x2 * relpos g3 i3 x3 * V (i1 + 1) (i2 + 1) (i3 + 1)

/-- Modelled from the spec: thread of bracket indices produced by the
monotonic sequential search over a batch, starting from index `j`
(spec 4.1, 4.4): each point starts where the previous one stopped. -/
def monIdxs (g : List ℚ) : ℕ → List ℚ → List ℕ
  | _, [] => []
  | j, x :: xs => locate_mon g j x :: monIdxs g (locate_mon g j x) xs

/-- Modelled from the spec: 1D preparation state (spec 3, 4.3): a
per-point bracket index and a per-point cached fractional weight for
the varying dimension, sized to the batch. -/
structure Prep1 where
  js : List ℕ
  ws : List ℚ

/-- Modelled from the spec: `linear_interp.interp_1d_prep`: allocate
the per-point scratch for a batch of `Nyi` points; no search is
performed yet for the varying dimension (spec 4.3). -/
def interp_1d_prep (Nyi : ℕ) : Prep1 :=
  ⟨List.replicate Nyi 0, List.replicate Nyi 0⟩

/-- Modelled from the spec: `linear_interp.interp_1d_vec`: vectorized
1D evaluation, binary search every point (spec 4.4). -/
def interp_1d_vec (g : List ℚ) (v : ℕ → ℚ) (xs : List ℚ) : List ℚ :=
  xs.map (interp_1d g v)

/-- Modelled from the spec: `linear_interp.interp_1d_vec_mon`:
vectorized 1D evaluation with sequential search over a sorted batch,
storing the per-point brackets and weights in the state for later
repeat calls (spec 4.4).  The mutated state is returned. -/
def interp_1d_vec_mon (p : Prep1) (g : List ℚ) (v : ℕ → ℚ) (xs : List ℚ) :
    Prep1 × List ℚ :=
  let js := monIdxs g 0 xs
  (⟨js, List.zipWith (fun j x => relpos g j x) js xs⟩,
   List.zipWith (fun j x => blend1 g v j x) js xs)

/-- Modelled from the spec: `linear_interp.interp_1d_vec_mon_rep`:
repeat call after a monotonic call with the same coordinate batch: no
search at all, the cached per-point brackets and weights are blended
with the (possibly updated) value array (spec 4.4). -/
def interp_1d_vec_mon_rep (p : Prep1) (g : List ℚ) (v : ℕ → ℚ) (xs : List ℚ) :
    List ℚ :=
  List.zipWith (fun j w => (1 - w) * v j + w * v (j + 1)) p.js p.ws

/-- Modelled from the spec: `linear_interp.interp_1d_vec_mon_noprep`:
monotonic vectorized 1D evaluation without any preparation state, the
bracket thread starting at index 0. -/
def interp_1d_vec_mon_noprep (g : List ℚ) (v : ℕ → ℚ) (xs : List ℚ) : List ℚ :=
  List.zipWith (fun j x => blend1 g v j x) (monIdxs g 0 xs) xs

/-- Modelled from the spec: 3D preparation state (spec 3, 4.3): one
bracket index per fixed dimension, plus per-point scratch (bracket and
cached weight) for the varying last dimension, sized to the batch. -/
structure Prep3 where
  j1 : ℕ
  j2 : ℕ
  js : List ℕ
  ws : List ℚ

/-- Modelled from the spec: `linear_interp.interp_3d_prep`: bracket
search for the two fixed dimensions, allocation of the last-dimension
scratch sized to `Nyi`; no search yet for the varying dimension
(spec 4.3). -/
def interp_3d_prep (g1 g2 : List ℚ) (x1 x2 : ℚ) (Nyi : ℕ) : Prep3 :=
  ⟨locate g1 x1, locate g2 x2, List.replicate Nyi 0, List.replicate Nyi 0⟩

/-- Modelled from the spec: `linear_interp.interp_3d_vec`: vectorized
3D evaluation, binary search every point and every dimension
(spec 4.4).  The three coordinate lists are zipped positionally. -/
def interp_3d_vec (g1 g2 g3 : List ℚ) (V : ℕ → ℕ → ℕ → ℚ)
    (xs1 xs2 xs3 : List ℚ) : List ℚ :=
  (xs1.zip (xs2.zip xs3)).map fun q => interp_3d g1 g2 g3 V q.1 q.2.1 q.2.2

/-- Modelled from the spec: `linear_interp.interp_3d_only_last`:
single-point prepared evaluation: the fixed dimensions reuse the
brackets stored in the state, the last dimension is binary-searched
(spec 4.4). -/
def interp_3d_only_last (p : Prep3) (g1 g2 g3 : List ℚ) (V : ℕ → ℕ → ℕ → ℚ)
    (x1 x2 x3 : ℚ) : ℚ :=
  blend3 g1 g2 g3 V p.j1 p.j2 (locate g3 x3) x1 x2 x3

/-- Modelled from the spec: `linear_interp.interp_3d_only_last_vec`:
vectorized prepared evaluation, binary search on the last dimension
per point (spec 4.4). -/
def interp_3d_only_last_vec (p : Prep3) (g1 g2 g3 : List ℚ)
    (V : ℕ → ℕ → ℕ → ℚ) (x1 x2 : ℚ) (xs3 : List ℚ) : List ℚ :=
  xs3.map fun x3 => interp_3d_only_last p g1 g2 g3 V x1 x2 x3

/-- Modelled from the spec: `linear_interp.interp_3d_only_last_vec_mon`:
vectorized prepared evaluation with sequential search on the sorted
last-dimension batch, storing per-point brackets and weights in the
state for later repeat calls (spec 4.4).  The mutated state is
returned. -/
def interp_3d_only_last_vec_mon (p : Prep3) (g1 g2 g3 : List ℚ)
    (V : ℕ → ℕ → ℕ → ℚ) (x1 x2 : ℚ) (xs3 : List ℚ) : Prep3 × List ℚ :=
  let js := monIdxs g3 0 xs3
  (⟨p.j1, p.j2, js, List.zipWith (fun j x => relpos g3 j x) js xs3⟩,
   List.zipWith (fun j x3 => blend3 g1 g2 g3 V p.j1 p.j2 j x1 x2 x3) js xs3)

/-- Modelled from the spec:
`linear_interp.interp_3d_only_last_vec_mon_rep`: repeat call after a
monotonic call with the same coordinate batch: no last-dimension search
at all, the cached per-point brackets and weights are blended with the
(possibly updated) value array (spec 4.4). -/
def interp_3d_only_last_vec_mon_rep (p : Prep3) (g1 g2 g3 : List ℚ)
    (V : ℕ → ℕ → ℕ → ℚ) (x1 x2 : ℚ) (xs3 : List ℚ) : List ℚ :=
  List.zipWith
    (fun j w =>
      blend1 g1
        (fun a => blend1 g2 (fun b => (1 - w) * V a b j + w * V a b (j + 1)) p.j2 x2)
        p.j1 x1)
    p.js p.ws

/-- Pointwise update of a 3D value array at one corner, used to state
the corner-locality property of repeat calls. -/
def update3 (V : ℕ → ℕ → ℕ → ℚ) (a b c : ℕ) (q : ℚ) : ℕ → ℕ → ℕ → ℚ :=
  fun i j k => if i = a ∧ j = b ∧ k = c then q else V i j k

theorem locate_nil (x : ℚ) : locate [] x = 0 := rfl

theorem locate_single (a x : ℚ) : locate [a] x = 0 := rfl

theorem locate_pair (a b x : ℚ) : locate [a, b] x = 0 := rfl

theorem locate_cons3 (a b c : ℚ) (rest : List ℚ) (x : ℚ) :
    locate (a :: b :: c :: rest) x =
      if x ≤ b then 0 else locate (b :: c :: rest) x + 1 := rfl

/-- The locator never exceeds the last valid cell index `n - 2`. -/
theorem locate_le : ∀ (g : List ℚ) (x : ℚ), locate g x ≤ g.length - 2
  | [], _ => Nat.le_refl _
  | [_], _ => Nat.zero_le _
  | [_, _], _ => Nat.zero_le _
  | a :: b :: c :: rest, x => by
    rw [locate_cons3]
    by_cases hxb : x ≤ b
    · simp [hxb]
    · rw [if_neg hxb]
      have ih := locate_le (b :: c :: rest) x
      simp only [List.length_cons] at ih ⊢
      omega

/-- The locator is monotone in the query coordinate. -/
theorem locate_mono : ∀ (g : List ℚ) {x y : ℚ}, x ≤ y → locate g x ≤ locate g y
  | [], _, _, _ => Nat.le_refl _
  | [_], _, _, _ => Nat.le_refl _
  | [_, _], _, _, _ => Nat.le_refl _
  | a :: b :: c :: rest, x, y, hxy => by
    rw [locate_cons3, locate_cons3]
    by_cases hyb : y ≤ b
    · rw [if_pos (le_trans hxy hyb), if_pos hyb]
    · rw [if_neg hyb]
      by_cases hxb : x ≤ b
      · rw [if_pos hxb]; exact Nat.zero_le _
      · rw [if_neg hxb]
        exact Nat.succ_le_succ (locate_mono (b :: c :: rest) hxy)

/-- Every node strictly left of the located cell's right endpoint lies
strictly below the query. -/
theorem gridGet_lt_of_lt_locate : ∀ (g : List ℚ) (x : ℚ) (i : ℕ),
    i < locate g x → gridGet g (i + 1) < x
  | [], x, i, hi => by rw [locate_nil] at hi; omega
  | [_], x, i, hi => by rw [locate_single] at hi; omega
  | [_, _], x, i, hi => by rw [locate_pair] at hi; omega
  | a :: b :: c :: rest, x, i, hi => by
    rw [locate_cons3] at hi
    by_cases hxb : x ≤ b
    · rw [if_pos hxb] at hi; omega
    · rw [if_neg hxb] at hi
      cases i with
      | zero =>
        simpa [gridGet, List.getD] using lt_of_not_le hxb
      | succ i0 =>
        have ih := gridGet_lt_of_lt_locate (b :: c :: rest) x i0 (by omega)
        simpa [gridGet, List.getD_cons_succ] using ih

/-- When the located cell is not the last one, the query does not lie
strictly beyond the cell's right endpoint. -/
theorem le_gridGet_of_locate_small : ∀ (g : List ℚ) (x : ℚ),
    locate g x + 2 < g.length → x ≤ gridGet g (locate g x + 1)
  | [], x, h => by rw [locate_nil] at *; simp at h
  | [_], x, h => by rw [locate_single] at *; simp at h
  | [_, _], x, h => by rw [locate_pair] at *; simp at h
  | a :: b :: c :: rest, x, h => by
    rw [locate_cons3] at h ⊢
    by_cases hxb : x ≤ b
    · rw [if_pos hxb]
      simpa [gridGet, List.getD] using hxb
    · rw [if_neg hxb] at h ⊢
      have ih := le_gridGet_of_locate_small (b :: c :: rest) x
        (by simp only [List.length_cons] at h ⊢; omega)
      simpa [gridGet, List.getD_cons_succ] using ih

/-- Leastness of the locator: any index whose cell brackets the query
is at least the located index (ties broken toward the lower index). -/
theorem locate_least : ∀ (g : List ℚ) (x : ℚ) (i : ℕ),
    i + 1 < g.length → gridGet g i ≤ x → x ≤ gridGet g (i + 1) →
    locate g x ≤ i
  | [], _, _, _, _, _ => Nat.le_refl _ |>.trans (Nat.zero_le _)
  | [_], _, _, _, _, _ => Nat.zero_le _
  | [_, _], _, _, _, _, _ => Nat.zero_le _
  | a :: b :: c :: rest, x, i, hlen, hlo, hhi => by
    rw [locate_cons3]
    by_cases hxb : x ≤ b
    · rw [if_pos hxb]; exact Nat.zero_le _
    · rw [if_neg hxb]
      cases i with
      | zero =>
        exact absurd (by simpa [gridGet, List.getD] using hhi) hxb
      | succ i0 =>
        have ih := locate_least (b :: c :: rest) x i0
          (by simp only [List.length_cons] at hlen ⊢; omega)
          (by simpa [gridGet, List.getD_cons_succ] using hlo)
          (by simpa [gridGet, List.getD_cons_succ] using hhi)
        omega

/-- On a strictly increasing grid, nodes are strictly monotone in the
index (within bounds). -/
theorem gridGet_strictMono {g : List ℚ} (hs : List.Chain' (· < ·) g)
    {i j : ℕ} (hij : i < j) (hj : j < g.length) :
    gridGet g i < gridGet g j := by
  have hp : List.Pairwise (· < ·) g := List.chain'_iff_pairwise.mp hs
  have hget := (List.pairwise_iff_getElem.mp hp) i j (lt_trans hij hj) hj hij
  have hi : i < g.length := lt_trans hij hj
  simpa [gridGet, List.getD_eq_getElem?_getD, List.getElem?_eq_getElem, hi, hj] using hget

/-- On a strictly increasing grid, nodes are monotone in the index. -/
theorem gridGet_mono {g : List ℚ} (hs : List.Chain' (· < ·) g)
    {i j : ℕ} (hij : i ≤ j) (hj : j < g.length) :
    gridGet g i ≤ gridGet g j := by
  rcases Nat.lt_or_ge i j with h | h
  · exact le_of_lt (gridGet_strictMono hs h hj)
  · have : i = j := le_antisymm hij h
    rw [this]

/-- Below the covered range, the locator clamps to the first cell. -/
theorem locate_below {g : List ℚ} (hs : List.Chain' (· < ·) g)
    (h2 : 2 ≤ g.length) {x : ℚ} (hx : x < gridGet g 0) : locate g x = 0 := by
  match g, h2 with
  | [_, _], _ => exact locate_pair _ _ _
  | a :: b :: c :: rest, _ =>
    rw [locate_cons3, if_pos]
    have hab : a < b := (List.chain'_cons.mp hs).1
    have : gridGet (a :: b :: c :: rest) 0 = a := rfl
    rw [this] at hx
    exact le_of_lt (lt_trans hx hab)

/-- Above the covered range, the locator clamps to the last cell. -/
theorem locate_above : ∀ (g : List ℚ), List.Chain' (· < ·) g →
    ∀ {x : ℚ}, gridGet g (g.length - 1) < x → locate g x = g.length - 2
  | [], _, _, _ => rfl
  | [_], _, _, _ => rfl
  | [_, _], _, _, _ => rfl
  | a :: b :: c :: rest, hs, x, hx => by
    have htail : List.Chain' (· < ·) (b :: c :: rest) := (List.chain'_cons.mp hs).2
    have hlast : gridGet (b :: c :: rest) ((b :: c :: rest).length - 1) < x := by
      simpa [gridGet, List.getD_cons_succ, List.length_cons] using hx
    have hble : b ≤ gridGet (b :: c :: rest) ((b :: c :: rest).length - 1) := by
      have := gridGet_mono htail (Nat.zero_le ((b :: c :: rest).length - 1))
        (by simp [List.length_cons])
      simpa [gridGet, List.getD] using this
    rw [locate_cons3, if_neg (not_le.mpr (lt_of_le_of_lt hble hlast)),
      locate_above (b :: c :: rest) htail hlast]
    simp [List.length_cons]

/-- Left half of the bracket contract: once the query is at or above
the grid's first node, it is at or above the located cell's left
endpoint. -/
theorem gridGet_locate_le {g : List ℚ} {x : ℚ}
    (h0 : gridGet g 0 ≤ x) : gridGet g (locate g x) ≤ x := by
  cases hL : locate g x with
  | zero => exact hL ▸ h0
  | succ L =>
    exact le_of_lt (gridGet_lt_of_lt_locate g x L (by omega))

/-- Right half of the bracket contract: once the query is at or below
the grid's last node, it is at or below the located cell's right
endpoint. -/
theorem le_gridGet_locate {g : List ℚ} {x : ℚ} (h2 : 2 ≤ g.length)
    (hn : x ≤ gridGet g (g.length - 1)) : x ≤ gridGet g (locate g x + 1) := by
  rcases Nat.lt_or_ge (locate g x + 2) g.length with h | h
  · exact le_gridGet_of_locate_small g x h
  · have hle := locate_le g x
    have : locate g x + 1 = g.length - 1 := by omega
    rw [this]
    exact hn

/-- The sequential search agrees with the binary-search locator
whenever it starts at or below the target bracket and has enough
fuel. -/
theorem seqAdvance_eq_locate : ∀ (g : List ℚ) (x : ℚ) (fuel i : ℕ),
    i ≤ locate g x → locate g x ≤ i + fuel → seqAdvance g x fuel i = locate g x
  | g, x, 0, i, hlo, hhi => by
    have : i = locate g x := by omega
    simpa [seqAdvance] using this
  | g, x, fuel + 1, i, hlo, hhi => by
    rcases Nat.lt_or_ge i (locate g x) with hlt | hge
    · have hcond : i + 2 < g.length ∧ gridGet g (i + 1) < x := by
        constructor
        · have := locate_le g x
          have h2 : 2 ≤ g.length := by
            rcases g with _ | ⟨a, _ | ⟨b, t⟩⟩
            · rw [locate_nil] at hlt; omega
            · rw [locate_single] at hlt; omega
            · simp [List.length_cons]
          omega
        · exact gridGet_lt_of_lt_locate g x i hlt
      rw [seqAdvance, if_pos hcond]
      exact seqAdvance_eq_locate g x fuel (i + 1) hlt (by omega)
    · have hieq : i = locate g x := by omega
      have hcond : ¬ (i + 2 < g.length ∧ gridGet g (i + 1) < x) := by
        rintro ⟨hlen, hgt⟩
        have := le_gridGet_of_locate_small g x (by omega)
        rw [← hieq] at this
        exact absurd hgt (not_lt.mpr this)
      rw [seqAdvance, if_neg hcond]
      exact hieq

/-- The monotonic locator agrees with the binary-search locator
whenever it starts at or below the target bracket. -/
theorem locate_mon_eq_locate {g : List ℚ} {x : ℚ} {i : ℕ}
    (hi : i ≤ locate g x) : locate_mon g i x = locate g x := by
  have hle := locate_le g x
  exact seqAdvance_eq_locate g x g.length i hi (by omega)

/-- The 1D blend only depends on the pointwise values of the value
array. -/
theorem blend1_congr {g : List ℚ} {v w : ℕ → ℚ} (h : ∀ a, v a = w a)
    {i : ℕ} {x : ℚ} : blend1 g v i x = blend1 g w i x := by
  unfold blend1
  rw [h i, h (i + 1)]

/-- Bracket independence of the 1D blend: on a strictly increasing
grid, blending in any cell that brackets the query gives the same
value as blending in the located cell (the two can differ only when
the query sits exactly on a shared node, where both give that node's
value). -/
theorem blend1_bracket_indep {g : List ℚ} (hs : List.Chain' (· < ·) g)
    {i : ℕ} {x : ℚ} (hlen : i + 1 < g.length)
    (hlo : gridGet g i ≤ x) (hhi : x ≤ gridGet g (i + 1)) (v : ℕ → ℚ) :
    blend1 g v i x = blend1 g v (locate g x) x := by
  have hL := locate_least g x i hlen hlo hhi
  rcases Nat.eq_or_lt_of_le hL with heq | hlt
  · rw [heq]
  · set L := locate g x with hLdef
    have hn : x ≤ gridGet g (g.length - 1) :=
      le_trans hhi (gridGet_mono hs (by omega) (by omega))
    have hxL1 : x ≤ gridGet g (L + 1) := le_gridGet_locate (by omega) hn
    have hsucc : L + 1 = i := by
      by_contra hne
      have h1 : L + 1 < i := by omega
      have := gridGet_strictMono hs h1 (by omega)
      exact absurd (lt_of_lt_of_le this hlo) (not_lt.mpr hxL1)
    have hxi : x = gridGet g i := le_antisymm (hsucc ▸ hxL1) hlo
    have hxq : x = gridGet g (L + 1) := by rw [hsucc]; exact hxi
    have hdL : gridGet g (L + 1) - gridGet g L ≠ 0 := by
      have := gridGet_strictMono hs (Nat.lt_succ_self L) (by omega)
      exact sub_ne_zero_of_ne (ne_of_gt this)
    have hrL : relpos g L x = 1 := by
      unfold relpos
      rw [hxq]
      exact div_self hdL
    have hri : relpos g i x = 0 := by
      unfold relpos
      rw [hxi, sub_self, zero_div]
    unfold blend1
    rw [hrL, hri, hsucc]
    ring

/-- The nested 2D blend equals the flat 4-corner product-weight sum. -/
theorem blend2_eq_refBilinear (g1 g2 : List ℚ) (V : ℕ → ℕ → ℚ)
    (i1 i2 : ℕ) (x1 x2 : ℚ) :
    blend2 g1 g2 V i1 i2 x1 x2 = refBilinear g1 g2 V i1 i2 x1 x2 := by
  unfold blend2 blend1 refBilinear
  ring

/-- The nested 3D blend equals the flat 8-corner product-weight sum. -/
theorem blend3_eq_refTrilinear (g1 g2 g3 : List ℚ) (V : ℕ → ℕ → ℕ → ℚ)
    (i1 i2 i3 : ℕ) (x1 x2 x3 : ℚ) :
    blend3 g1 g2 g3 V i1 i2 i3 x1 x2 x3 = refTrilinear g1 g2 g3 V i1 i2 i3 x1 x2 x3 := by
  unfold blend3 blend2 blend1 refTrilinear
  ring

/-- Bracket independence of the nested 2D blend, dimension by
dimension. -/
theorem blend2_bracket_indep {g1 g2 : List ℚ}
    (hs1 : List.Chain' (· < ·) g1) (hs2 : List.Chain' (· < ·) g2)
    {i1 i2 : ℕ} {x1 x2 : ℚ}
    (hlen1 : i1 + 1 < g1.length) (hlo1 : gridGet g1 i1 ≤ x1)
    (hhi1 : x1 ≤ gridGet g1 (i1 + 1))
    (hlen2 : i2 + 1 < g2.length) (hlo2 : gridGet g2 i2 ≤ x2)
    (hhi2 : x2 ≤ gridGet g2 (i2 + 1)) (V : ℕ → ℕ → ℚ) :
    blend2 g1 g2 V i1 i2 x1 x2 =
      blend2 g1 g2 V (locate g1 x1) (locate g2 x2) x1 x2 := by
  unfold blend2
  rw [blend1_bracket_indep hs1 hlen1 hlo1 hhi1]
  exact blend1_congr fun a => blend1_bracket_indep hs2 hlen2 hlo2 hhi2 (V a)

/-- Bracket independence of the nested 3D blend, dimension by
dimension. -/
theorem blend3_bracket_indep {g1 g2 g3 : List ℚ}
    (hs1 : List.Chain' (· < ·) g1) (hs2 : List.Chain' (· < ·) g2)
    (hs3 : List.Chain' (· < ·) g3)
    {i1 i2 i3 : ℕ} {x1 x2 x3 : ℚ}
    (hlen1 : i1 + 1 < g1.length) (hlo1 : gridGet g1 i1 ≤ x1)
    (hhi1 : x1 ≤ gridGet g1 (i1 + 1))
    (hlen2 : i2 + 1 < g2.length) (hlo2 : gridGet g2 i2 ≤ x2)
    (hhi2 : x2 ≤ gridGet g2 (i2 + 1))
    (hlen3 : i3 + 1 < g3.length) (hlo3 : gridGet g3 i3 ≤ x3)
    (hhi3 : x3 ≤ gridGet g3 (i3 + 1)) (V : ℕ → ℕ → ℕ → ℚ) :
    blend3 g1 g2 g3 V i1 i2 i3 x1 x2 x3 =
      blend3 g1 g2 g3 V (locate g1 x1) (locate g2 x2) (locate g3 x3) x1 x2 x3 := by
  unfold blend3
  rw [blend1_bracket_indep hs1 hlen1 hlo1 hhi1]
  exact blend1_congr fun a =>
    blend2_bracket_indep hs2 hs3 hlen2 hlo2 hhi2 hlen3 hlo3 hhi3 (fun b c => V a b c)

/-- The monotonic index thread has one bracket per query point. -/
theorem monIdxs_length : ∀ (g : List ℚ) (j : ℕ) (xs : List ℚ),
    (monIdxs g j xs).length = xs.length
  | _, _, [] => rfl
  | g, j, x :: xs => by
    unfold monIdxs
    simp only [List.length_cons, monIdxs_length g (locate_mon g j x) xs]

/-- Over a non-decreasing batch, the monotonic index thread coincides
pointwise with the binary-search locator, as soon as it starts at or
below the first point's bracket. -/
theorem monIdxs_eq_map : ∀ {g : List ℚ} {j : ℕ} {xs : List ℚ},
    List.Chain' (· ≤ ·) xs → (∀ y, xs.head? = some y → j ≤ locate g y) →
    monIdxs g j xs = xs.map (locate g)
  | _, _, [], _, _ => rfl
  | g, j, x :: xs, hchain, hj => by
    have hjx : j ≤ locate g x := hj x rfl
    have hcc := List.chain'_cons'.mp hchain
    unfold monIdxs
    rw [locate_mon_eq_locate hjx, List.map_cons]
    refine congrArg _ (monIdxs_eq_map hcc.2 fun y hy => ?_)
    exact locate_mono g (hcc.1 y hy)

/-- Zipping a function against the map of its first argument is a
map. -/
theorem zipWith_map_self {α β γ : Type} (f : β → α → γ) (h : α → β) :
    ∀ (xs : List α), List.zipWith f (xs.map h) xs = xs.map fun x => f (h x) x
  | [] => rfl
  | x :: xs => by
    simp only [List.map_cons, List.zipWith_cons_cons, zipWith_map_self f h xs]

/-- Fusing a zip with a zip over the same left list. -/
theorem zipWith_zipWith_same {α β γ δ : Type} (f : α → γ → δ) (h : α → β → γ) :
    ∀ (js : List α) (xs : List β),
      List.zipWith f js (List.zipWith h js xs) =
        List.zipWith (fun j x => f j (h j x)) js xs
  | [], _ => rfl
  | _ :: _, [] => rfl
  | j :: js, x :: xs => by
    simp only [List.zipWith_cons_cons, zipWith_zipWith_same f h js xs]

/-- The cached weight thread blended against a value array gives the
same answers as blending each point directly in its threaded cell. -/
theorem rep_zip_eq (g1 g2 g3 : List ℚ) (W : ℕ → ℕ → ℕ → ℚ) (j1 j2 : ℕ)
    (x1 x2 : ℚ) (js : List ℕ) (xs3 : List ℚ) :
    List.zipWith
        (fun j w =>
          blend1 g1
            (fun a => blend1 g2 (fun b => (1 - w) * W a b j + w * W a b (j + 1)) j2 x2)
            j1 x1)
        js (List.zipWith (fun j x => relpos g3 j x) js xs3) =
      List.zipWith (fun j x3 => blend3 g1 g2 g3 W j1 j2 j x1 x2 x3) js xs3 := by
  rw [zipWith_zipWith_same]
  rfl

/-- A repeat call on the state left by a monotonic call evaluates the
cached cells against the supplied (possibly different) value array. -/
theorem rep_state_eval (p : Prep3) (g1 g2 g3 : List ℚ) (V W : ℕ → ℕ → ℕ → ℚ)
    (x1 x2 : ℚ) (xs3 : List ℚ) :
    interp_3d_only_last_vec_mon_rep
        ((interp_3d_only_last_vec_mon p g1 g2 g3 V x1 x2 xs3).1) g1 g2 g3 W x1 x2 xs3 =
      (interp_3d_only_last_vec_mon p g1 g2 g3 W x1 x2 xs3).2 := by
  simp only [interp_3d_only_last_vec_mon, interp_3d_only_last_vec_mon_rep]
  exact rep_zip_eq g1 g2 g3 W p.j1 p.j2 x1 x2 (monIdxs g3 0 xs3) xs3

/-- 1D version of the repeat-call evaluation. -/
theorem rep1_state_eval (p : Prep1) (g : List ℚ) (v w : ℕ → ℚ) (xs : List ℚ) :
    interp_1d_vec_mon_rep ((interp_1d_vec_mon p g v xs).1) g w xs =
      (interp_1d_vec_mon p g w xs).2 := by
  simp only [interp_1d_vec_mon, interp_1d_vec_mon_rep]
  rw [zipWith_zipWith_same]
  rfl

/-- Over a non-decreasing batch, the monotonic 3D driver produces the
binary-search driver's outputs. -/
theorem mon_out_eq_vec (p : Prep3) (g1 g2 g3 : List ℚ) (V : ℕ → ℕ → ℕ → ℚ)
    (x1 x2 : ℚ) {xs3 : List ℚ} (hchain : List.Chain' (· ≤ ·) xs3) :
    (interp_3d_only_last_vec_mon p g1 g2 g3 V x1 x2 xs3).2 =
      interp_3d_only_last_vec p g1 g2 g3 V x1 x2 xs3 := by
  simp only [interp_3d_only_last_vec_mon, interp_3d_only_last_vec]
  rw [monIdxs_eq_map hchain fun y _ => Nat.zero_le _]
  rw [zipWith_map_self]
  rfl

/-- Over a non-decreasing batch, the monotonic 1D no-preparation
driver produces the binary-search driver's outputs. -/
theorem mon1_out_eq_vec (g : List ℚ) (v : ℕ → ℚ) {xs : List ℚ}
    (hchain : List.Chain' (· ≤ ·) xs) :
    interp_1d_vec_mon_noprep g v xs = interp_1d_vec g v xs := by
  simp only [interp_1d_vec_mon_noprep, interp_1d_vec]
  rw [monIdxs_eq_map hchain fun y _ => Nat.zero_le _]
  rw [zipWith_map_self]
  rfl

/-- Indexing a zip with defaults, inside bounds. -/
theorem getD_zipWith {α β γ : Type} (f : α → β → γ) :
    ∀ (l1 : List α) (l2 : List β) (k : ℕ), k < l1.length → k < l2.length →
      ∀ (d : γ) (d1 : α) (d2 : β),
        (List.zipWith f l1 l2).getD k d = f (l1.getD k d1) (l2.getD k d2)
  | [], _, k, h1, _, _, _, _ => by simp at h1
  | _ :: _, [], k, _, h2, _, _, _ => by simp at h2
  | a :: l1, b :: l2, 0, _, _, d, d1, d2 => rfl
  | a :: l1, b :: l2, k + 1, h1, h2, d, d1, d2 => by
    simp only [List.zipWith_cons_cons, List.getD_cons_succ]
    exact getD_zipWith f l1 l2 k (by simpa using h1) (by simpa using h2) d d1 d2

/-- Indexing a map with defaults, inside bounds. -/
theorem getD_map_default {α β : Type} (h : α → β) :
    ∀ (xs : List α) (k : ℕ), k < xs.length → ∀ (d : β) (d1 : α),
      (xs.map h).getD k d = h (xs.getD k d1)
  | [], k, hk, _, _ => by simp at hk
  | x :: xs, 0, _, _, _ => rfl
  | x :: xs, k + 1, hk, d, d1 => by
    simp only [List.map_cons, List.getD_cons_succ]
    exact getD_map_default h xs k (by simpa using hk) d d1

/-- The repeat-call cell blend only depends on the value array at the
8 corners of the cell. -/
theorem repCell_congr {g1 g2 : List ℚ} {V W : ℕ → ℕ → ℕ → ℚ} {j1 j2 j : ℕ}
    {x1 x2 w : ℚ}
    (h : ∀ a b c, (a = j1 ∨ a = j1 + 1) → (b = j2 ∨ b = j2 + 1) →
      (c = j ∨ c = j + 1) → W a b c = V a b c) :
    blend1 g1
        (fun a => blend1 g2 (fun b => (1 - w) * W a b j + w * W a b (j + 1)) j2 x2)
        j1 x1 =
      blend1 g1
        (fun a => blend1 g2 (fun b => (1 - w) * V a b j + w * V a b (j + 1)) j2 x2)
        j1 x1 := by
  simp only [blend1]
  rw [h j1 j2 j (Or.inl rfl) (Or.inl rfl) (Or.inl rfl),
    h j1 j2 (j + 1) (Or.inl rfl) (Or.inl rfl) (Or.inr rfl),
    h j1 (j2 + 1) j (Or.inl rfl) (Or.inr rfl) (Or.inl rfl),
    h j1 (j2 + 1) (j + 1) (Or.inl rfl) (Or.inr rfl) (Or.inr rfl),
    h (j1 + 1) j2 j (Or.inr rfl) (Or.inl rfl) (Or.inl rfl),
    h (j1 + 1) j2 (j + 1) (Or.inr rfl) (Or.inl rfl) (Or.inr rfl),
    h (j1 + 1) (j2 + 1) j (Or.inr rfl) (Or.inr rfl) (Or.inl rfl),
    h (j1 + 1) (j2 + 1) (j + 1) (Or.inr rfl) (Or.inr rfl) (Or.inr rfl)]

/-- Claim C6: for every strictly increasing grid of size `n >= 2` and
every query coordinate `x`, the bracket locator returns an index `i`
with `grid[i] <= x <= grid[i+1]` when `x` is within range, returns
`i = 0` when `x < grid[0]`, returns `i = n - 2` when `x > grid[n-1]`,
and breaks ties toward the lower index (it is the least bracketing
index). -/
theorem locate_contract {g : List ℚ} (hs : List.Chain' (· < ·) g)
    (h2 : 2 ≤ g.length) (x : ℚ) :
    locate g x + 1 < g.length ∧
    (gridGet g 0 ≤ x → x ≤ gridGet g (g.length - 1) →
      gridGet g (locate g x) ≤ x ∧ x ≤ gridGet g (locate g x + 1)) ∧
    (x < gridGet g 0 → locate g x = 0) ∧
    (gridGet g (g.length - 1) < x → locate g x = g.length - 2) ∧
    (∀ i, i + 1 < g.length → gridGet g i ≤ x → x ≤ gridGet g (i + 1) →
      locate g x ≤ i) := by
  refine ⟨?_, ?_, ?_, ?_, ?_⟩
  · have := locate_le g x
    omega
  · exact fun h0 hn => ⟨gridGet_locate_le h0, le_gridGet_locate h2 hn⟩
  · exact fun hx => locate_below hs h2 hx
  · exact fun hx => locate_above g hs hx
  · exact fun i hlen hlo hhi => locate_least g x i hlen hlo hhi

/-- Claim C1: for strictly increasing grids and any query whose
coordinates lie inside the covered range (witnessed by a bracketing
cell per dimension), the single-point evaluations `interp_1d`,
`interp_2d` and `interp_3d` equal the independently computed
multilinear reference blends of the `2^d` corner values with
product-of-linear weights, at any valid bracketing cells. -/
theorem interp_matches_reference {g1 g2 g3 : List ℚ}
    (hs1 : List.Chain' (· < ·) g1) (hs2 : List.Chain' (· < ·) g2)
    (hs3 : List.Chain' (· < ·) g3)
    {i1 i2 i3 : ℕ} {x1 x2 x3 : ℚ}
    (hlen1 : i1 + 1 < g1.length) (hlo1 : gridGet g1 i1 ≤ x1)
    (hhi1 : x1 ≤ gridGet g1 (i1 + 1))
    (hlen2 : i2 + 1 < g2.length) (hlo2 : gridGet g2 i2 ≤ x2)
    (hhi2 : x2 ≤ gridGet g2 (i2 + 1))
    (hlen3 : i3 + 1 < g3.length) (hlo3 : gridGet g3 i3 ≤ x3)
    (hhi3 : x3 ≤ gridGet g3 (i3 + 1))
    (v : ℕ → ℚ) (V2 : ℕ → ℕ → ℚ) (V3 : ℕ → ℕ → ℕ → ℚ) :
    interp_1d g1 v x1 = refLinear g1 v i1 x1 ∧
    interp_2d g1 g2 V2 x1 x2 = refBilinear g1 g2 V2 i1 i2 x1 x2 ∧
    interp_3d g1 g2 g3 V3 x1 x2 x3 = refTrilinear g1 g2 g3 V3 i1 i2 i3 x1 x2 x3 := by
  refine ⟨?_, ?_, ?_⟩
  · rw [show refLinear g1 v i1 x1 = blend1 g1 v i1 x1 from rfl,
      blend1_bracket_indep hs1 hlen1 hlo1 hhi1 v]
    rfl
  · rw [← blend2_eq_refBilinear,
      blend2_bracket_indep hs1 hs2 hlen1 hlo1 hhi1 hlen2 hlo2 hhi2 V2]
    rfl
  · rw [← blend3_eq_refTrilinear,
      blend3_bracket_indep hs1 hs2 hs3 hlen1 hlo1 hhi1 hlen2 hlo2 hhi2
        hlen3 hlo3 hhi3 V3]
    rfl

/-- Claim C2: for a query outside the covered range, evaluation
returns the linear extrapolation that extends the boundary cell's
slope (the unclamped blend of the first, resp. last, cell); on the
grid `[1,2,3,4,5]` with values `[1,4,9,16,25]`, the query `x = 2.5`
returns `6.5`, `x = 0` returns `-2`, and `x = 6` returns `34`. -/
theorem extrapolation_boundary_slope {g : List ℚ}
    (hs : List.Chain' (· < ·) g) (h2 : 2 ≤ g.length) (v : ℕ → ℚ) {x : ℚ} :
    (x < gridGet g 0 → interp_1d g v x = refLinear g v 0 x) ∧
    (gridGet g (g.length - 1) < x →
      interp_1d g v x = refLinear g v (g.length - 2) x) ∧
    interp_1d [1, 2, 3, 4, 5] (fun i => ([1, 4, 9, 16, 25] : List ℚ).getD i 0)
      (5 / 2) = 13 / 2 ∧
    interp_1d [1, 2, 3, 4, 5] (fun i => ([1, 4, 9, 16, 25] : List ℚ).getD i 0)
      0 = -2 ∧
    interp_1d [1, 2, 3, 4, 5] (fun i => ([1, 4, 9, 16, 25] : List ℚ).getD i 0)
      6 = 34 := by
  refine ⟨?_, ?_, ?_, ?_, ?_⟩
  · intro hx
    rw [interp_1d, locate_below hs h2 hx]
    rfl
  · intro hx
    rw [interp_1d, locate_above g hs hx]
    rfl
  · have hloc : locate [1, 2, 3, 4, 5] ((5 : ℚ) / 2) = 1 := by
      rw [locate_cons3, if_neg (by norm_num), locate_cons3, if_pos (by norm_num)]
    rw [interp_1d, hloc]
    unfold blend1 relpos gridGet
    norm_num
  · have hloc : locate [1, 2, 3, 4, 5] (0 : ℚ) = 0 := by
      rw [locate_cons3, if_pos (by norm_num)]
    rw [interp_1d, hloc]
    unfold blend1 relpos gridGet
    norm_num
  · have hloc : locate [1, 2, 3, 4, 5] (6 : ℚ) = 3 := by
      rw [locate_cons3, if_neg (by norm_num), locate_cons3, if_neg (by norm_num),
        locate_cons3, if_neg (by norm_num), locate_pair]
    rw [interp_1d, hloc]
    unfold blend1 relpos gridGet
    norm_num

/-- Claim C9: `interp_3d_prep` accepts a batch size of 0, and the
resulting state is valid for the scalar prepared entry point: a
subsequent `interp_3d_only_last` call returns the no-preparation
scalar evaluation of the same point. -/
theorem prep_batch_zero_valid (g1 g2 g3 : List ℚ) (V : ℕ → ℕ → ℕ → ℚ)
    (x1 x2 x3 : ℚ) :
    interp_3d_only_last (interp_3d_prep g1 g2 x1 x2 0) g1 g2 g3 V x1 x2 x3 =
      interp_3d g1 g2 g3 V x1 x2 x3 := rfl

/-- Claim C10: evaluation is deterministic; in particular running the
monotonic variant and then the repeat variant on unchanged inputs
yields identical output buffers, both in 3D and in 1D, even though the
first call mutated the preparation state. -/
theorem mon_then_rep_identical (p : Prep3) (g1 g2 g3 : List ℚ)
    (V : ℕ → ℕ → ℕ → ℚ) (x1 x2 : ℚ) (xs3 : List ℚ)
    (p1 : Prep1) (g : List ℚ) (v : ℕ → ℚ) (xs : List ℚ) :
    interp_3d_only_last_vec_mon_rep
        ((interp_3d_only_last_vec_mon p g1 g2 g3 V x1 x2 xs3).1)
        g1 g2 g3 V x1 x2 xs3 =
      (interp_3d_only_last_vec_mon p g1 g2 g3 V x1 x2 xs3).2 ∧
    interp_1d_vec_mon_rep ((interp_1d_vec_mon p1 g v xs).1) g v xs =
      (interp_1d_vec_mon p1 g v xs).2 :=
  ⟨rep_state_eval p g1 g2 g3 V V x1 x2 xs3, rep1_state_eval p1 g v v xs⟩

/-- Claim C4: for a batch whose last-dimension coordinates are sorted
non-decreasing, the monotonic sequential-search 3D variant writes an
output sequence element-wise equal to the binary-search variant's
output on the same batch (the sequential search advances the previous
bracket until the bracket condition holds and clamps at the last valid
cell, as `seqAdvance` does). -/
theorem mon_batch_equal_binary (p : Prep3) (g1 g2 g3 : List ℚ)
    (V : ℕ → ℕ → ℕ → ℚ) (x1 x2 : ℚ) {xs3 : List ℚ}
    (hchain : List.Chain' (· ≤ ·) xs3) :
    (interp_3d_only_last_vec_mon p g1 g2 g3 V x1 x2 xs3).2 =
      interp_3d_only_last_vec p g1 g2 g3 V x1 x2 xs3 :=
  mon_out_eq_vec p g1 g2 g3 V x1 x2 hchain

/-- Claim C8: for a non-decreasing 1D batch, the no-preparation
monotonic variant `interp_1d_vec_mon_noprep` writes the same outputs
as the binary-search vectorized variant `interp_1d_vec`. -/
theorem mon_noprep_equal_binary (g : List ℚ) (v : ℕ → ℚ) {xs : List ℚ}
    (hchain : List.Chain' (· ≤ ·) xs) :
    interp_1d_vec_mon_noprep g v xs = interp_1d_vec g v xs :=
  mon1_out_eq_vec g v hchain

/-- Claim C3: every evaluation variant (single with preparation,
vectorized without preparation, vectorized with preparation,
vectorized + preparation + monotonic, and the repeat variant after a
monotonic call) returns the same result as the no-preparation
single-point evaluation on the same scalar query, with unchanged grids
and value array. -/
theorem variants_agree_on_scalar (g1 g2 g3 : List ℚ) (V : ℕ → ℕ → ℕ → ℚ)
    (x1 x2 x3 : ℚ) (N : ℕ) :
    interp_3d_only_last (interp_3d_prep g1 g2 x1 x2 N) g1 g2 g3 V x1 x2 x3 =
      interp_3d g1 g2 g3 V x1 x2 x3 ∧
    interp_3d_vec g1 g2 g3 V [x1] [x2] [x3] =
      [interp_3d g1 g2 g3 V x1 x2 x3] ∧
    interp_3d_only_last_vec (interp_3d_prep g1 g2 x1 x2 N) g1 g2 g3 V x1 x2 [x3] =
      [interp_3d g1 g2 g3 V x1 x2 x3] ∧
    (interp_3d_only_last_vec_mon (interp_3d_prep g1 g2 x1 x2 N)
        g1 g2 g3 V x1 x2 [x3]).2 =
      [interp_3d g1 g2 g3 V x1 x2 x3] ∧
    interp_3d_only_last_vec_mon_rep
        ((interp_3d_only_last_vec_mon (interp_3d_prep g1 g2 x1 x2 N)
            g1 g2 g3 V x1 x2 [x3]).1)
        g1 g2 g3 V x1 x2 [x3] =
      [interp_3d g1 g2 g3 V x1 x2 x3] := by
  have hL : locate_mon g3 0 x3 = locate g3 x3 :=
    locate_mon_eq_locate (Nat.zero_le _)
  have hmon : (interp_3d_only_last_vec_mon (interp_3d_prep g1 g2 x1 x2 N)
      g1 g2 g3 V x1 x2 [x3]).2 = [interp_3d g1 g2 g3 V x1 x2 x3] := by
    simp only [interp_3d_only_last_vec_mon, monIdxs, hL,
      List.zipWith_cons_cons, List.zipWith_nil_right]
    rfl
  refine ⟨rfl, rfl, rfl, hmon, ?_⟩
  rw [rep_state_eval]
  exact hmon

/-- Claim C5: a repeat call after a monotonic call with the same
coordinate batch but a modified value array returns the interpolation
computed against the new value array (it equals the binary-search
variant run on the new array), reusing the cached brackets and
weights; and changing a single corner value changes only the outputs
whose enclosing cell includes that corner. -/
theorem rep_new_value_array (p : Prep3) (g1 g2 g3 : List ℚ)
    (V W : ℕ → ℕ → ℕ → ℚ) (x1 x2 : ℚ) {xs3 : List ℚ}
    (hchain : List.Chain' (· ≤ ·) xs3) :
    interp_3d_only_last_vec_mon_rep
        ((interp_3d_only_last_vec_mon p g1 g2 g3 V x1 x2 xs3).1)
        g1 g2 g3 W x1 x2 xs3 =
      interp_3d_only_last_vec p g1 g2 g3 W x1 x2 xs3 ∧
    (∀ k, k < xs3.length → ∀ a b c : ℕ, ∀ q : ℚ,
      ((a ≠ p.j1 ∧ a ≠ p.j1 + 1) ∨ (b ≠ p.j2 ∧ b ≠ p.j2 + 1) ∨
        (c ≠ locate g3 (xs3.getD k 0) ∧ c ≠ locate g3 (xs3.getD k 0) + 1)) →
      (interp_3d_only_last_vec_mon_rep
          ((interp_3d_only_last_vec_mon p g1 g2 g3 V x1 x2 xs3).1)
          g1 g2 g3 (update3 V a b c q) x1 x2 xs3).getD k 0 =
        (interp_3d_only_last_vec_mon_rep
          ((interp_3d_only_last_vec_mon p g1 g2 g3 V x1 x2 xs3).1)
          g1 g2 g3 V x1 x2 xs3).getD k 0) := by
  constructor
  · rw [rep_state_eval]
    exact mon_out_eq_vec p g1 g2 g3 W x1 x2 hchain
  · intro k hk a b c q havoid
    rw [rep_state_eval p g1 g2 g3 V (update3 V a b c q) x1 x2 xs3,
      rep_state_eval p g1 g2 g3 V V x1 x2 xs3]
    simp only [interp_3d_only_last_vec_mon]
    rw [monIdxs_eq_map hchain fun y _ => Nat.zero_le _]
    have hklen : k < (xs3.map (locate g3)).length := by simpa using hk
    rw [getD_zipWith _ (xs3.map (locate g3)) xs3 k hklen hk 0 0 0,
      getD_zipWith _ (xs3.map (locate g3)) xs3 k hklen hk 0 0 0,
      getD_map_default (locate g3) xs3 k hk 0 0]
    refine repCell_congr ?_
    intro a0 b0 c0 ha0 hb0 hc0
    have hne : ¬(a0 = a ∧ b0 = b ∧ c0 = c) := by
      rintro ⟨ha, hb, hc⟩
      rcases havoid with ⟨h1, h2⟩ | ⟨h1, h2⟩ | ⟨h1, h2⟩
      · rcases ha0 with h | h <;> omega
      · rcases hb0 with h | h <;> omega
      · rcases hc0 with h | h <;> omega
    simp only [update3, if_neg hne]

/-- Claim C7: every evaluation call writes exactly one value per query
point into the output buffer (its length is the batch length, no
reallocation) and does not touch the grids or the value array (the
model takes them as read-only inputs); the monotonic variant mutates
only the stored last-dimension brackets and cached weights, keeping
the fixed-dimension brackets and the state's size unchanged. -/
theorem eval_frame_effects (p : Prep3) (g1 g2 g3 : List ℚ)
    (V : ℕ → ℕ → ℕ → ℚ) (x1 x2 : ℚ) (xs3 : List ℚ) :
    (interp_3d_only_last_vec p g1 g2 g3 V x1 x2 xs3).length = xs3.length ∧
    (interp_3d_only_last_vec_mon p g1 g2 g3 V x1 x2 xs3).2.length = xs3.length ∧
    (interp_3d_only_last_vec_mon p g1 g2 g3 V x1 x2 xs3).1.j1 = p.j1 ∧
    (interp_3d_only_last_vec_mon p g1 g2 g3 V x1 x2 xs3).1.j2 = p.j2 ∧
    (p.js.length = xs3.length →
      (interp_3d_only_last_vec_mon p g1 g2 g3 V x1 x2 xs3).1.js.length =
        p.js.length) ∧
    (p.ws.length = xs3.length →
      (interp_3d_only_last_vec_mon p g1 g2 g3 V x1 x2 xs3).1.ws.length =
        p.ws.length) ∧
    (p.js.length = p.ws.length →
      (interp_3d_only_last_vec_mon_rep p g1 g2 g3 V x1 x2 xs3).length =
        p.js.length) := by
  refine ⟨?_, ?_, rfl, rfl, ?_, ?_, ?_⟩
  · simp [interp_3d_only_last_vec]
  · simp [interp_3d_only_last_vec_mon, List.length_zipWith, monIdxs_length]
  · intro h
    simp [interp_3d_only_last_vec_mon, monIdxs_length, h]
  · intro h
    simp [interp_3d_only_last_vec_mon, List.length_zipWith, monIdxs_length, h]
  · intro h
    simp [interp_3d_only_last_vec_mon_rep, List.length_zipWith, h]

/-- Witness for claim C6: the locator contract instantiated on the
grid `[0,1,2]` at the in-range query `1`. -/
theorem locate_contract_witness :
    List.Chain' (· < ·) ([0, 1, 2] : List ℚ) ∧
    2 ≤ ([0, 1, 2] : List ℚ).length ∧
    (locate [0, 1, 2] 1 + 1 < ([0, 1, 2] : List ℚ).length ∧
      (gridGet [0, 1, 2] 0 ≤ 1 →
        (1 : ℚ) ≤ gridGet [0, 1, 2] (([0, 1, 2] : List ℚ).length - 1) →
        gridGet [0, 1, 2] (locate [0, 1, 2] 1) ≤ 1 ∧
          (1 : ℚ) ≤ gridGet [0, 1, 2] (locate [0, 1, 2] 1 + 1)) ∧
      ((1 : ℚ) < gridGet [0, 1, 2] 0 → locate [0, 1, 2] 1 = 0) ∧
      (gridGet [0, 1, 2] (([0, 1, 2] : List ℚ).length - 1) < 1 →
        locate [0, 1, 2] 1 = ([0, 1, 2] : List ℚ).length - 2) ∧
      (∀ i, i + 1 < ([0, 1, 2] : List ℚ).length → gridGet [0, 1, 2] i ≤ 1 →
        (1 : ℚ) ≤ gridGet [0, 1, 2] (i + 1) → locate [0, 1, 2] 1 ≤ i)) :=
  ⟨by norm_num [List.chain'_cons], by norm_num,
    locate_contract (by norm_num [List.chain'_cons]) (by norm_num) 1⟩

/-- Witness for claim C1: the engine matches the reference blends on
the unit grids `[0,1]` at the interior query `1/2`, bracketed by cell
0 in every dimension. -/
theorem interp_matches_reference_witness :
    List.Chain' (· < ·) ([0, 1] : List ℚ) ∧
    gridGet [0, 1] 0 ≤ (1 / 2 : ℚ) ∧ (1 / 2 : ℚ) ≤ gridGet [0, 1] (0 + 1) ∧
    (interp_1d [0, 1] (fun i => (i : ℚ)) (1 / 2) =
        refLinear [0, 1] (fun i => (i : ℚ)) 0 (1 / 2) ∧
      interp_2d [0, 1] [0, 1] (fun i j => (i + j : ℚ)) (1 / 2) (1 / 2) =
        refBilinear [0, 1] [0, 1] (fun i j => (i + j : ℚ)) 0 0 (1 / 2) (1 / 2) ∧
      interp_3d [0, 1] [0, 1] [0, 1] (fun i j k => (i + j + k : ℚ))
          (1 / 2) (1 / 2) (1 / 2) =
        refTrilinear [0, 1] [0, 1] [0, 1] (fun i j k => (i + j + k : ℚ)) 0 0 0
          (1 / 2) (1 / 2) (1 / 2)) :=
  ⟨by norm_num [List.chain'_cons], by norm_num [gridGet], by norm_num [gridGet],
    @interp_matches_reference [0, 1] [0, 1] [0, 1]
      (by norm_num [List.chain'_cons]) (by norm_num [List.chain'_cons])
      (by norm_num [List.chain'_cons]) 0 0 0 (1 / 2) (1 / 2) (1 / 2)
      (by norm_num) (by norm_num [gridGet]) (by norm_num [gridGet])
      (by norm_num) (by norm_num [gridGet]) (by norm_num [gridGet])
      (by norm_num) (by norm_num [gridGet]) (by norm_num [gridGet])
      (fun i => (i : ℚ)) (fun i j => (i + j : ℚ)) (fun i j k => (i + j + k : ℚ))⟩

/-- Witness for claim C2: on the grid `[0,1]` with values `v i = i`,
the below-range query `-1` is answered by the first cell's unclamped
blend. -/
theorem extrapolation_boundary_slope_witness :
    List.Chain' (· < ·) ([0, 1] : List ℚ) ∧
    (-1 : ℚ) < gridGet [0, 1] 0 ∧
    interp_1d [0, 1] (fun i => (i : ℚ)) (-1) =
      refLinear [0, 1] (fun i => (i : ℚ)) 0 (-1) :=
  ⟨by norm_num [List.chain'_cons], by norm_num [gridGet],
    (@extrapolation_boundary_slope [0, 1] (by norm_num [List.chain'_cons])
        (by norm_num) (fun i => (i : ℚ)) (-1)).1 (by norm_num [gridGet])⟩

/-- Witness for claim C4: monotonic and binary-search 3D drivers agree
on the sorted batch `[0, 1]`. -/
theorem mon_batch_equal_binary_witness :
    List.Chain' (· ≤ ·) ([0, 1] : List ℚ) ∧
    (interp_3d_only_last_vec_mon (interp_3d_prep [0, 1] [0, 1] 0 0 2)
        [0, 1] [0, 1] [0, 1] (fun i j k => (i + j + k : ℚ)) 0 0 [0, 1]).2 =
      interp_3d_only_last_vec (interp_3d_prep [0, 1] [0, 1] 0 0 2)
        [0, 1] [0, 1] [0, 1] (fun i j k => (i + j + k : ℚ)) 0 0 [0, 1] :=
  ⟨by norm_num [List.chain'_cons],
    @mon_batch_equal_binary (interp_3d_prep [0, 1] [0, 1] 0 0 2)
      [0, 1] [0, 1] [0, 1] (fun i j k => (i + j + k : ℚ)) 0 0 [0, 1]
      (by norm_num [List.chain'_cons])⟩

/-- Witness for claim C8: the no-preparation monotonic 1D driver and
the binary-search 1D driver agree on the sorted batch `[0, 1]`. -/
theorem mon_noprep_equal_binary_witness :
    List.Chain' (· ≤ ·) ([0, 1] : List ℚ) ∧
    interp_1d_vec_mon_noprep [0, 1] (fun i => (i : ℚ)) [0, 1] =
      interp_1d_vec [0, 1] (fun i => (i : ℚ)) [0, 1] :=
  ⟨by norm_num [List.chain'_cons],
    @mon_noprep_equal_binary [0, 1] (fun i => (i : ℚ)) [0, 1]
      (by norm_num [List.chain'_cons])⟩

/-- Witness for claim C5: after a monotonic call on the batch `[0,1]`,
updating the value array at the far-away corner `(5,0,0)` leaves the
first output of the repeat call unchanged. -/
theorem rep_new_value_array_witness :
    List.Chain' (· ≤ ·) ([0, 1] : List ℚ) ∧
    (5 : ℕ) ≠ (0 : ℕ) ∧ (5 : ℕ) ≠ (0 : ℕ) + 1 ∧
    (interp_3d_only_last_vec_mon_rep
        ((interp_3d_only_last_vec_mon (⟨0, 0, [], []⟩ : Prep3) [0, 1] [0, 1] [0, 1]
            (fun i j k => (i + j + k : ℚ)) 0 0 [0, 1]).1)
        [0, 1] [0, 1] [0, 1]
        (update3 (fun i j k => (i + j + k : ℚ)) 5 0 0 7) 0 0 [0, 1]).getD 0 0 =
      (interp_3d_only_last_vec_mon_rep
        ((interp_3d_only_last_vec_mon (⟨0, 0, [], []⟩ : Prep3) [0, 1] [0, 1] [0, 1]
            (fun i j k => (i + j + k : ℚ)) 0 0 [0, 1]).1)
        [0, 1] [0, 1] [0, 1]
        (fun i j k => (i + j + k : ℚ)) 0 0 [0, 1]).getD 0 0 :=
  ⟨by norm_num [List.chain'_cons], by decide, by decide,
    (@rep_new_value_array (⟨0, 0, [], []⟩ : Prep3) [0, 1] [0, 1] [0, 1]
        (fun i j k => (i + j + k : ℚ)) (fun i j k => (i + j + k : ℚ)) 0 0 [0, 1]
        (by norm_num [List.chain'_cons])).2 0 (by norm_num) 5 0 0 7
      (Or.inl ⟨by decide, by decide⟩)⟩

end LinearInterp
